import Mathlib

/-!
Verification of the voxel-world core (chunk coordinates, registry, streaming
scheduler, noise generator, mesher) of `first-voxel-game`.

The Rust sources under `src/src/voxel/` are shallowly embedded below:
machine integers become `Nat`/`Int` (with explicit `%` where a cast can
truncate), `HashMap`s become association lists, fallible operations return
`Option`/`Except`, and the `f32` values flowing through the chunk/world
coordinate conversion are modelled by an explicit round-to-nearest-even
rounding function on integers.
-/

namespace VoxelGame

/-- Embeds `Voxel` from `src/voxel/mod.rs`: a `u16` occupancy id; `AIR` (id 0)
is the only empty class. -/
structure Voxel where
  id : Nat
  deriving DecidableEq, Repr

def Voxel.AIR : Voxel := ⟨0⟩

def Voxel.STONE : Voxel := ⟨1⟩

/-- `Voxel::is_solid`: every non-zero id is solid. -/
def Voxel.is_solid (v : Voxel) : Bool := v.id != 0

/-- Embeds `LocalVoxelPosition` (`src/voxel/generation.rs`): three `u8`
coordinates local to a chunk.  The `u8` range is not enforced by the type;
the source's `as u8` casts are modelled by explicit `% 2^8`. -/
structure LocalVoxelPosition where
  x : Nat
  y : Nat
  z : Nat
  deriving DecidableEq, Repr

/-- Embeds `LocalVoxelPosition::from_index`.  The source computes in `u32`
(`index as u32`, modelled by `% 2^32`) and casts each component back with
`as u8` (modelled by `% 2^8`).  For `cw = 0` the source panics with a
division by zero; no theorem below evaluates that case (its domain is empty). -/
def LocalVoxelPosition.from_index (index : Nat) (cw : Nat) : LocalVoxelPosition :=
  let i := index % 2 ^ 32
  { x := (i % cw) % 2 ^ 8
    y := ((i / cw) % cw) % 2 ^ 8
    z := (i / (cw * cw)) % 2 ^ 8 }

/-- Embeds `LocalVoxelPosition::to_index`: `z*W*W + y*W + x`, computed in
`usize` (no overflow is possible for `u8` inputs, so no reduction is needed). -/
def LocalVoxelPosition.to_index (p : LocalVoxelPosition) (cw : Nat) : Nat :=
  p.z * cw * cw + p.y * cw + p.x

/-- Chunk-grid coordinate, embedding `VoxelChunkPosition` (an `IVec3`). -/
abbrev VoxelChunkPosition := Int × Int × Int

/-- Bevy `Entity` ids, abstracted to `Nat`. -/
abbrev Entity := Nat

/-- Association-list lookup; stands in for `HashMap` lookups of the source. -/
def alookup {α β : Type} [DecidableEq α] (l : List (α × β)) (k : α) : Option β :=
  (l.find? (fun p => decide (p.1 = k))).map Prod.snd

/-- Embeds the `VoxelChunkMap` resource: the registry mapping chunk
coordinates to chunk entities, as an association list. -/
abbrev VoxelChunkMap := List (VoxelChunkPosition × Entity)

/-- Embeds `VoxelChunkMap::insert_chunk`.  The source mutates `&mut self` and
returns `Result<(), ()>`; here the (status, resulting map) pair is returned:
if the coordinate is already present the map is left untouched and an error
is reported, otherwise the new binding is added. -/
def insert_chunk (m : VoxelChunkMap) (c : VoxelChunkPosition) (e : Entity) :
    Except Unit Unit × VoxelChunkMap :=
  if (alookup m c).isSome then (.error (), m) else (.ok (), m ++ [(c, e)])

/-! ### Helper lemmas for association lists -/

theorem alookup_singleton {α β : Type} [DecidableEq α] (k k' : α) (v : β) :
    alookup [(k, v)] k' = if k = k' then some v else none := by
  by_cases h : k = k' <;> simp [alookup, List.find?, h]

theorem alookup_append {α β : Type} [DecidableEq α]
    (l l' : List (α × β)) (k : α) :
    alookup (l ++ l') k = (alookup l k).or (alookup l' k) := by
  cases h : List.find? (fun p => decide (p.1 = k)) l <;>
    simp [alookup, List.find?_append, h]

theorem alookup_eq_none_iff {α β : Type} [DecidableEq α]
    (l : List (α × β)) (k : α) :
    alookup l k = none ↔ ∀ p ∈ l, p.1 ≠ k := by
  simp only [alookup, Option.map_eq_none', List.find?_eq_none, decide_eq_true_eq]

/-- Claim C4: inserting at an already-present coordinate returns an error and
leaves the existing mapping unchanged; inserting at an absent coordinate
succeeds and adds exactly that one mapping; key-uniqueness (at most one chunk
per coordinate) is preserved. -/
theorem C4_insert_chunk (m : VoxelChunkMap) (c : VoxelChunkPosition) (e : Entity) :
    (∀ e0, alookup m c = some e0 →
        insert_chunk m c e = (.error (), m) ∧
        alookup (insert_chunk m c e).2 c = some e0) ∧
    (alookup m c = none →
        (insert_chunk m c e).1 = .ok () ∧
        alookup (insert_chunk m c e).2 c = some e ∧
        (∀ c', c' ≠ c → alookup (insert_chunk m c e).2 c' = alookup m c')) ∧
    ((m.map Prod.fst).Nodup → ((insert_chunk m c e).2.map Prod.fst).Nodup) := by
  refine ⟨?_, ?_, ?_⟩
  · intro e0 h
    have hs : (alookup m c).isSome := by rw [h]; rfl
    constructor
    · simp [insert_chunk, hs]
    · simp [insert_chunk, hs, h]
  · intro h
    refine ⟨by simp [insert_chunk, h], ?_, ?_⟩
    · simp only [insert_chunk, h, Option.isSome_none, Bool.false_eq_true, if_false]
      rw [alookup_append, h, alookup_singleton]
      simp
    · intro c' hc'
      simp only [insert_chunk, h, Option.isSome_none, Bool.false_eq_true, if_false]
      rw [alookup_append, alookup_singleton]
      rcases hm : alookup m c' with _ | v
      · simp only [hm, Option.none_or]
        rw [if_neg (fun h' => hc' h'.symm)]
      · simp [hm]
  · intro hnd
    rcases hh : alookup m c with _ | e0
    · have hfresh : c ∉ m.map Prod.fst := by
        rw [alookup_eq_none_iff] at hh
        intro hmem
        rcases List.mem_map.mp hmem with ⟨p, hp, hpc⟩
        exact hh p hp hpc
      simp only [insert_chunk, hh, Option.isSome_none, Bool.false_eq_true, if_false,
        List.map_append, List.map_cons, List.map_nil]
      rw [List.nodup_append]
      exact ⟨hnd, List.nodup_singleton c, by simpa using hfresh⟩
    · simpa [insert_chunk, hh] using hnd

/-- Claim C4 witness: duplicate insert at `(0,0,0)` errors and keeps the old
entity `5`; insert into the empty registry succeeds. -/
theorem C4_insert_chunk_witness :
    insert_chunk [(((0 : Int), (0 : Int), (0 : Int)), 5)] ((0 : Int), (0 : Int), (0 : Int)) 7 =
      (.error (), [(((0 : Int), (0 : Int), (0 : Int)), 5)]) ∧
    (insert_chunk [] ((0 : Int), (0 : Int), (0 : Int)) 7).1 = .ok () :=
  ⟨((C4_insert_chunk [(((0 : Int), (0 : Int), (0 : Int)), 5)] ((0 : Int), (0 : Int), (0 : Int)) 7).1
      5 (by decide)).1,
   ((C4_insert_chunk [] ((0 : Int), (0 : Int), (0 : Int)) 7).2.1 (by decide)).1⟩

/-! ### Claim C7: local index round trip -/

/-- Claim C7: for any configured chunk width (a `u8`, so `cw ≤ 256` covers
every possible width), `to_index` is `z*W*W + y*W + x` and `from_index` /
`to_index` are mutually inverse on their valid domains. -/
theorem C7_index_round_trip (cw : Nat) (hcw : cw ≤ 256) (p : LocalVoxelPosition)
    (hx : p.x < cw) (hy : p.y < cw) (hz : p.z < cw) (i : Nat) (hi : i < cw * cw * cw) :
    p.to_index cw = p.z * cw * cw + p.y * cw + p.x ∧
    LocalVoxelPosition.from_index (p.to_index cw) cw = p ∧
    (LocalVoxelPosition.from_index i cw).to_index cw = i := by
  have hcw0 : 0 < cw := Nat.lt_of_le_of_lt (Nat.zero_le p.x) hx
  have hcube : cw * cw * cw ≤ 2 ^ 24 := by
    calc cw * cw * cw ≤ 256 * 256 * 256 :=
          Nat.mul_le_mul (Nat.mul_le_mul hcw hcw) hcw
      _ = 2 ^ 24 := by norm_num
  refine ⟨rfl, ?_, ?_⟩
  · -- from_index (to_index p) = p
    have hidx : p.to_index cw < cw * cw * cw := by
      unfold LocalVoxelPosition.to_index
      calc p.z * cw * cw + p.y * cw + p.x
          < p.z * cw * cw + p.y * cw + cw := Nat.add_lt_add_left hx _
        _ = p.z * cw * cw + (p.y + 1) * cw := by ring
        _ ≤ p.z * cw * cw + cw * cw :=
            Nat.add_le_add_left (Nat.mul_le_mul_right _ (Nat.succ_le_of_lt hy)) _
        _ = (p.z + 1) * (cw * cw) := by ring
        _ ≤ cw * (cw * cw) := Nat.mul_le_mul_right _ (Nat.succ_le_of_lt hz)
        _ = cw * cw * cw := by ring
    have h32 : p.to_index cw % 2 ^ 32 = p.to_index cw :=
      Nat.mod_eq_of_lt (lt_of_lt_of_le hidx (hcube.trans (by norm_num)))
    have hrepr : p.to_index cw = p.x + cw * (p.y + cw * p.z) := by
      unfold LocalVoxelPosition.to_index; ring
    unfold LocalVoxelPosition.from_index
    simp only [h32]
    have ex : p.to_index cw % cw = p.x := by
      rw [hrepr, Nat.add_mul_mod_self_left, Nat.mod_eq_of_lt hx]
    have ediv : p.to_index cw / cw = p.y + cw * p.z := by
      rw [hrepr, Nat.add_mul_div_left _ _ hcw0, Nat.div_eq_of_lt hx, Nat.zero_add]
    have ey : (p.to_index cw / cw) % cw = p.y := by
      rw [ediv, Nat.add_mul_mod_self_left, Nat.mod_eq_of_lt hy]
    have ez : p.to_index cw / (cw * cw) = p.z := by
      have : p.to_index cw = (p.y * cw + p.x) + (cw * cw) * p.z := by
        unfold LocalVoxelPosition.to_index; ring
      rw [this, Nat.add_mul_div_left _ _ (Nat.mul_pos hcw0 hcw0), Nat.div_eq_of_lt, Nat.zero_add]
      calc p.y * cw + p.x < p.y * cw + cw := Nat.add_lt_add_left hx _
        _ = (p.y + 1) * cw := by ring
        _ ≤ cw * cw := Nat.mul_le_mul_right _ hy
    rw [ex, ey, ez]
    have bx : p.x % 2 ^ 8 = p.x := Nat.mod_eq_of_lt (lt_of_lt_of_le hx (hcw.trans (by norm_num)))
    have by' : p.y % 2 ^ 8 = p.y := Nat.mod_eq_of_lt (lt_of_lt_of_le hy (hcw.trans (by norm_num)))
    have bz : p.z % 2 ^ 8 = p.z := Nat.mod_eq_of_lt (lt_of_lt_of_le hz (hcw.trans (by norm_num)))
    cases p
    simp_all
  · -- to_index (from_index i) = i
    have h32 : i % 2 ^ 32 = i := Nat.mod_eq_of_lt (lt_of_lt_of_le hi (hcube.trans (by norm_num)))
    have hzlt : i / (cw * cw) < cw := Nat.div_lt_of_lt_mul (by rw [Nat.mul_comm (cw * cw) cw] at hi ⊢; exact hi)
    have hx8 : (i % cw) % 2 ^ 8 = i % cw :=
      Nat.mod_eq_of_lt (lt_of_lt_of_le (Nat.mod_lt _ hcw0) (hcw.trans (by norm_num)))
    have hy8 : ((i / cw) % cw) % 2 ^ 8 = (i / cw) % cw :=
      Nat.mod_eq_of_lt (lt_of_lt_of_le (Nat.mod_lt _ hcw0) (hcw.trans (by norm_num)))
    have hz8 : (i / (cw * cw)) % 2 ^ 8 = i / (cw * cw) :=
      Nat.mod_eq_of_lt (lt_of_lt_of_le hzlt (hcw.trans (by norm_num)))
    unfold LocalVoxelPosition.from_index LocalVoxelPosition.to_index
    simp only [h32, hx8, hy8, hz8]
    have key : i % (cw * cw) = i % cw + cw * ((i / cw) % cw) := Nat.mod_mul
    have full : i % (cw * cw) + (cw * cw) * (i / (cw * cw)) = i := Nat.mod_add_div _ _
    calc i / (cw * cw) * cw * cw + (i / cw) % cw * cw + i % cw
        = (i % cw + cw * ((i / cw) % cw)) + (cw * cw) * (i / (cw * cw)) := by ring
      _ = i % (cw * cw) + (cw * cw) * (i / (cw * cw)) := by rw [key]
      _ = i := full

/-- Claim C7 witness: the round trip at width 16, position `(3,5,7)` and
index `100`. -/
theorem C7_index_round_trip_witness :
    (⟨3, 5, 7⟩ : LocalVoxelPosition).to_index 16 = 7 * 16 * 16 + 5 * 16 + 3 ∧
    LocalVoxelPosition.from_index ((⟨3, 5, 7⟩ : LocalVoxelPosition).to_index 16) 16 =
      ⟨3, 5, 7⟩ ∧
    (LocalVoxelPosition.from_index 100 16).to_index 16 = 100 :=
  C7_index_round_trip 16 (by decide) ⟨3, 5, 7⟩ (by decide) (by decide) (by decide)
    100 (by decide)

/-! ### Chunk store and `get_voxel` -/

/-- Embeds the `VoxelChunk` component: a dense flat list of voxels. -/
structure VoxelChunk where
  voxels : List Voxel
  deriving DecidableEq, Repr

/-- The Bevy `Query<&VoxelChunk>` argument of `get_voxel`, embedded as an
association list from entity id to chunk component. -/
abbrev ChunkQuery := List (Entity × VoxelChunk)

/-- Embeds `VoxelChunkMap::get_voxel`: look the chunk entity up in the map,
resolve it through the query, then read `voxels.get(to_index ..)`; any
failure yields `None`. -/
def get_voxel (m : VoxelChunkMap) (chunk_position : VoxelChunkPosition)
    (local_voxel_position : LocalVoxelPosition) (cw : Nat) (q : ChunkQuery) :
    Option Voxel :=
  match alookup m chunk_position with
  | none => none
  | some chunk_entity =>
    match alookup q chunk_entity with
    | none => none
    | some chunk => chunk.voxels.get? (local_voxel_position.to_index cw)

/-- Claim C10: `get_voxel` is total: it returns `none` when the chunk
coordinate is unregistered or the flattened index falls outside the voxel
array; but `to_index` is not injective over all `u8` triples — the
out-of-range local position `(W, y, z)` flattens to the same index as the
in-range `(0, y+1, z)`, so for such positions `get_voxel` returns `some` of
that other voxel's value rather than `none`. -/
theorem C10_get_voxel_aliasing (m : VoxelChunkMap) (q : ChunkQuery) (cw : Nat)
    (cp : VoxelChunkPosition) (lp : LocalVoxelPosition) (e : Entity)
    (chunk : VoxelChunk) (y z : Nat) :
    (alookup m cp = none → get_voxel m cp lp cw q = none) ∧
    (alookup m cp = some e → alookup q e = some chunk →
      chunk.voxels.length ≤ lp.to_index cw → get_voxel m cp lp cw q = none) ∧
    ((⟨cw, y, z⟩ : LocalVoxelPosition).to_index cw =
      (⟨0, y + 1, z⟩ : LocalVoxelPosition).to_index cw) ∧
    (get_voxel m cp ⟨cw, y, z⟩ cw q = get_voxel m cp ⟨0, y + 1, z⟩ cw q) ∧
    (alookup m cp = some e → alookup q e = some chunk →
      chunk.voxels.length = cw * cw * cw → y + 1 < cw → z < cw →
      (get_voxel m cp ⟨cw, y, z⟩ cw q).isSome) := by
  have hidx : (⟨cw, y, z⟩ : LocalVoxelPosition).to_index cw =
      (⟨0, y + 1, z⟩ : LocalVoxelPosition).to_index cw := by
    show z * cw * cw + y * cw + cw = z * cw * cw + (y + 1) * cw + 0
    ring
  refine ⟨?_, ?_, hidx, ?_, ?_⟩
  · intro h
    simp [get_voxel, h]
  · intro hm hq hlen
    simp only [get_voxel, hm, hq]
    exact List.get?_eq_none.mpr hlen
  · unfold get_voxel
    rw [hidx]
  · intro hm hq hlen hy hz
    have hcw0 : 0 < cw := Nat.lt_of_le_of_lt (Nat.zero_le _) hy
    have hlt : (⟨0, y + 1, z⟩ : LocalVoxelPosition).to_index cw < cw * cw * cw := by
      show z * cw * cw + (y + 1) * cw + 0 < cw * cw * cw
      calc z * cw * cw + (y + 1) * cw + 0
          = z * cw * cw + (y + 1) * cw := by ring
        _ < z * cw * cw + cw * cw :=
            Nat.add_lt_add_left (mul_lt_mul_of_pos_right hy hcw0) _
        _ = (z + 1) * (cw * cw) := by ring
        _ ≤ cw * (cw * cw) := Nat.mul_le_mul_right _ (Nat.succ_le_of_lt hz)
        _ = cw * cw * cw := by ring
    have hlen' : (⟨0, y + 1, z⟩ : LocalVoxelPosition).to_index cw < chunk.voxels.length := by
      rw [hlen]; exact hlt
    have hsome := List.get?_eq_get hlen'
    simp only [get_voxel, hm, hq, hidx, hsome, Option.isSome_some]

/-- Claim C10 witness: at width 3 with a 27-voxel chunk whose voxel at
`(0,1,0)` (index 3) is stone, the out-of-range query `(3,0,0)` reads that
same stone voxel, while an unregistered coordinate and an oversized index
yield `none`. -/
theorem C10_get_voxel_aliasing_witness :
    (get_voxel [] ((0 : Int), (0 : Int), (0 : Int)) ⟨0, 0, 0⟩ 3 [] = none) ∧
    ((⟨3, 0, 0⟩ : LocalVoxelPosition).to_index 3 =
      (⟨0, 1, 0⟩ : LocalVoxelPosition).to_index 3) ∧
    (get_voxel [(((0 : Int), (0 : Int), (0 : Int)), 1)] ((0 : Int), (0 : Int), (0 : Int))
        ⟨3, 0, 0⟩ 3 [(1, ⟨(List.replicate 27 Voxel.AIR).set 3 Voxel.STONE⟩)]).isSome := by
  have h := C10_get_voxel_aliasing [(((0 : Int), (0 : Int), (0 : Int)), 1)]
    [(1, ⟨(List.replicate 27 Voxel.AIR).set 3 Voxel.STONE⟩)] 3
    ((0 : Int), (0 : Int), (0 : Int)) ⟨0, 0, 0⟩ 1
    ⟨(List.replicate 27 Voxel.AIR).set 3 Voxel.STONE⟩ 0 0
  have h0 := C10_get_voxel_aliasing [] [] 3 ((0 : Int), (0 : Int), (0 : Int)) ⟨0, 0, 0⟩ 0
    ⟨[]⟩ 0 0
  exact ⟨h0.1 rfl, h.2.2.1,
    h.2.2.2.2 (by decide) (by decide) (by decide) (by decide) (by decide)⟩

/-! ### Streaming scheduler (`src/voxel/load.rs`) -/

/-- Embeds the `RenderDistance` component: render distance `val` and
`unload_margin`, both non-negative (`u32`). -/
structure RenderDistance where
  val : Nat
  unload_margin : Nat
  deriving DecidableEq, Repr

/-- The integers of `[a, b]` in ascending order (the iteration order of a
Rust `a..=b` loop over `i32`). -/
def intRange (a b : Int) : List Int :=
  (List.range (b + 1 - a).toNat).map (fun (k : Nat) => a + (k : Int))

/-- The scan cube `[o-R, o+R]^3` in the source's loop order (`x` outermost,
then `y`, then `z`). -/
def cubeCoords (o : VoxelChunkPosition) (R : Nat) : List VoxelChunkPosition :=
  (intRange (o.1 - R) (o.1 + R)).bind fun x =>
    (intRange (o.2.1 - R) (o.2.1 + R)).bind fun y =>
      (intRange (o.2.2 - R) (o.2.2 + R)).map fun z => (x, y, z)

/-- Squared Euclidean distance between chunk coordinates, via the
component-wise absolute difference the source takes first
(`(*chunk_pos - origin_chunk_pos).0.abs()`).  The source compares
`abs_diff.as_vec3().length() <= R as f32`; for the magnitudes a `u32`/`i32`
chunk scan can produce before `f32` squares degrade (all components and radii
below `2^11`), that comparison is exactly `dist2 ≤ R^2`, which is the form
used here. -/
def dist2 (a b : VoxelChunkPosition) : Nat :=
  (a.1 - b.1).natAbs ^ 2 + (a.2.1 - b.2.1).natAbs ^ 2 + (a.2.2 - b.2.2).natAbs ^ 2

/-- The body of the load-scan loop of
`systems::enqueue_chunks_in_render_distance`: skip a coordinate that is
registered or already queued, otherwise enqueue it when its distance from
the observer's origin chunk is within the render distance. -/
def enqueueStep (reg : VoxelChunkMap) (R : Nat) (o : VoxelChunkPosition)
    (queue : List VoxelChunkPosition) (c : VoxelChunkPosition) :
    List VoxelChunkPosition :=
  if (alookup reg c).isSome ∨ c ∈ queue then queue
  else if dist2 c o ≤ R ^ 2 then queue ++ [c] else queue

/-- One observer's pass of `systems::enqueue_chunks_in_render_distance`:
fold the loop body over the scan cube, threading the load queue. -/
def enqueue_scan (reg : VoxelChunkMap) (o : VoxelChunkPosition) (R : Nat)
    (queue : List VoxelChunkPosition) : List VoxelChunkPosition :=
  (cubeCoords o R).foldl (enqueueStep reg R o) queue

/-- Embeds `systems::enqueue_chunks_in_render_distance` for a list of
observers (origin chunk coordinate paired with render distance). -/
def enqueue_chunks_in_render_distance
    (observers : List (VoxelChunkPosition × RenderDistance))
    (reg : VoxelChunkMap) (queue : List VoxelChunkPosition) :
    List VoxelChunkPosition :=
  observers.foldl (fun q obs => enqueue_scan reg obs.1 obs.2.val q) queue

theorem enqueueStep_subset (reg : VoxelChunkMap) (R : Nat) (o : VoxelChunkPosition)
    (queue : List VoxelChunkPosition) (a c : VoxelChunkPosition)
    (h : c ∈ enqueueStep reg R o queue a) :
    c ∈ queue ∨ (c = a ∧ alookup reg c = none ∧ c ∉ queue ∧ dist2 c o ≤ R ^ 2) := by
  unfold enqueueStep at h
  split_ifs at h with h1 h2
  · exact Or.inl h
  · rcases List.mem_append.mp h with h3 | h3
    · exact Or.inl h3
    · have hca : c = a := by simpa using h3
      subst hca
      push_neg at h1
      exact Or.inr ⟨rfl, by
        rcases hr : alookup reg c with _ | v
        · rfl
        · exact absurd (by rw [hr]; rfl) h1.1, h1.2, h2⟩
  · exact Or.inl h

theorem enqueue_scan_mono (reg : VoxelChunkMap) (R : Nat) (o : VoxelChunkPosition)
    (l : List VoxelChunkPosition) :
    ∀ queue c, c ∈ queue → c ∈ l.foldl (enqueueStep reg R o) queue := by
  induction l with
  | nil => intro queue c h; exact h
  | cons a t ih =>
    intro queue c h
    rw [List.foldl_cons]
    apply ih
    unfold enqueueStep
    split_ifs <;> simp [h]

theorem enqueue_scan_sound (reg : VoxelChunkMap) (R : Nat) (o : VoxelChunkPosition)
    (l : List VoxelChunkPosition) :
    ∀ queue c, c ∈ l.foldl (enqueueStep reg R o) queue →
      c ∈ queue ∨ (c ∈ l ∧ alookup reg c = none ∧ dist2 c o ≤ R ^ 2) := by
  induction l with
  | nil => intro queue c h; exact Or.inl h
  | cons a t ih =>
    intro queue c h
    rw [List.foldl_cons] at h
    rcases ih _ c h with h1 | h1
    · rcases enqueueStep_subset reg R o queue a c h1 with h2 | h2
      · exact Or.inl h2
      · exact Or.inr ⟨by rw [h2.1]; exact List.mem_cons_self _ _, h2.2.1, h2.2.2.2⟩
    · exact Or.inr ⟨List.mem_cons_of_mem _ h1.1, h1.2⟩

theorem enqueue_scan_complete (reg : VoxelChunkMap) (R : Nat) (o : VoxelChunkPosition)
    (l : List VoxelChunkPosition) :
    ∀ queue c, c ∈ l → alookup reg c = none → c ∉ queue → dist2 c o ≤ R ^ 2 →
      c ∈ l.foldl (enqueueStep reg R o) queue := by
  induction l with
  | nil => intro queue c h; cases h
  | cons a t ih =>
    intro queue c hmem hreg hq hd
    rw [List.foldl_cons]
    by_cases hca : c = a
    · subst hca
      apply enqueue_scan_mono
      unfold enqueueStep
      rw [if_neg, if_pos hd]
      · exact List.mem_append_right _ (List.mem_singleton_self c)
      · push_neg
        exact ⟨by rw [hreg]; simp, hq⟩
    · have hct : c ∈ t := by
        rcases List.mem_cons.mp hmem with h | h
        · exact absurd h hca
        · exact h
      apply ih _ c hct hreg _ hd
      intro habs
      rcases enqueueStep_subset reg R o queue a c habs with h | h
      · exact hq h
      · exact hca h.1

theorem mem_intRange (a b v : Int) : v ∈ intRange a b ↔ a ≤ v ∧ v ≤ b := by
  constructor
  · intro h
    rcases List.mem_map.mp h with ⟨k, hk, hv⟩
    have hklt := List.mem_range.mp hk
    have hkint : (k : Int) < ((b + 1 - a).toNat : Int) := by exact_mod_cast hklt
    omega
  · intro ⟨h1, h2⟩
    refine List.mem_map.mpr ⟨(v - a).toNat, List.mem_range.mpr ?_, ?_⟩
    · omega
    · omega

theorem mem_cubeCoords (o : VoxelChunkPosition) (R : Nat) (c : VoxelChunkPosition) :
    c ∈ cubeCoords o R ↔
      (o.1 - R ≤ c.1 ∧ c.1 ≤ o.1 + R) ∧
      (o.2.1 - R ≤ c.2.1 ∧ c.2.1 ≤ o.2.1 + R) ∧
      (o.2.2 - R ≤ c.2.2 ∧ c.2.2 ≤ o.2.2 + R) := by
  obtain ⟨cx, cy, cz⟩ := c
  simp only [cubeCoords, List.mem_bind, List.mem_map]
  constructor
  · rintro ⟨x, hx, y, hy, z, hz, heq⟩
    obtain ⟨rfl, rfl, rfl⟩ : x = cx ∧ y = cy ∧ z = cz := by
      simpa [Prod.ext_iff] using heq
    exact ⟨(mem_intRange _ _ _).mp hx, (mem_intRange _ _ _).mp hy,
      (mem_intRange _ _ _).mp hz⟩
  · rintro ⟨hx, hy, hz⟩
    exact ⟨cx, (mem_intRange _ _ _).mpr hx, cy, (mem_intRange _ _ _).mpr hy,
      cz, (mem_intRange _ _ _).mpr hz, rfl⟩

theorem dist2_le_mem_cube (o c : VoxelChunkPosition) (R : Nat)
    (h : dist2 c o ≤ R ^ 2) : c ∈ cubeCoords o R := by
  have hcomp : ∀ d : Int, d.natAbs ^ 2 ≤ R ^ 2 → d.natAbs ≤ R := by
    intro d hd
    by_contra habs
    push_neg at habs
    exact absurd hd (not_le_of_lt (Nat.pow_lt_pow_left habs (by norm_num)))
  unfold dist2 at h
  have hx1 : (c.1 - o.1).natAbs ^ 2 ≤ R ^ 2 := by omega
  have hy1 : (c.2.1 - o.2.1).natAbs ^ 2 ≤ R ^ 2 := by omega
  have hz1 : (c.2.2 - o.2.2).natAbs ^ 2 ≤ R ^ 2 := by omega
  have hx := hcomp _ hx1
  have hy := hcomp _ hy1
  have hz := hcomp _ hz1
  rw [mem_cubeCoords]
  refine ⟨⟨?_, ?_⟩, ⟨?_, ?_⟩, ⟨?_, ?_⟩⟩ <;> omega

set_option maxRecDepth 40000 in
/-- Claim C2: during the load scan, a coordinate `c` of the cube
`[o-R, o+R]^3` is appended to the load queue iff it is unregistered, not
already queued, and within Euclidean distance `R` of the origin chunk; in
particular an observer at `(0,0,0)` with `R = 2` over an empty registry and
empty queue enqueues exactly the 33 coordinates of Euclidean norm ≤ 2, each
exactly once. -/
theorem C2_load_scan (reg : VoxelChunkMap) (queue : List VoxelChunkPosition)
    (o : VoxelChunkPosition) (R : Nat) (c : VoxelChunkPosition)
    (hc : c ∈ cubeCoords o R) :
    ((c ∈ enqueue_scan reg o R queue ∧ c ∉ queue) ↔
      (alookup reg c = none ∧ c ∉ queue ∧ dist2 c o ≤ R ^ 2)) ∧
    ((enqueue_scan [] ((0 : Int), (0 : Int), (0 : Int)) 2 []).length = 33 ∧
      (enqueue_scan [] ((0 : Int), (0 : Int), (0 : Int)) 2 []).Nodup ∧
      ∀ d, d ∈ enqueue_scan [] ((0 : Int), (0 : Int), (0 : Int)) 2 [] ↔
        dist2 d ((0 : Int), (0 : Int), (0 : Int)) ≤ 2 ^ 2) := by
  refine ⟨⟨?_, ?_⟩, ?_, ?_, ?_⟩
  · rintro ⟨hin, hq⟩
    rcases enqueue_scan_sound reg R o _ _ _ hin with h | h
    · exact absurd h hq
    · exact ⟨h.2.1, hq, h.2.2⟩
  · rintro ⟨hreg, hq, hd⟩
    exact ⟨enqueue_scan_complete reg R o _ _ _ hc hreg hq hd, hq⟩
  · decide
  · decide
  · intro d
    constructor
    · intro hd
      rcases enqueue_scan_sound [] 2 ((0 : Int), (0 : Int), (0 : Int)) _ _ _ hd with h | h
      · cases h
      · exact h.2.2
    · intro hd
      exact enqueue_scan_complete [] 2 _ _ _ _
        (dist2_le_mem_cube _ _ _ hd) rfl (List.not_mem_nil d) hd

/-- Claim C2 witness: the coordinate `(1,1,1)` (distance `√3 ≤ 2`) is
enqueued by the `R = 2` scan from an empty registry and queue. -/
theorem C2_load_scan_witness :
    ((1 : Int), (1 : Int), (1 : Int)) ∈
      enqueue_scan [] ((0 : Int), (0 : Int), (0 : Int)) 2 [] ∧
    (enqueue_scan [] ((0 : Int), (0 : Int), (0 : Int)) 2 []).length = 33 :=
  ⟨((C2_load_scan [] [] ((0 : Int), (0 : Int), (0 : Int)) 2
      ((1 : Int), (1 : Int), (1 : Int)) (by decide)).1.mpr
      ⟨rfl, List.not_mem_nil _, by decide⟩).1,
   (C2_load_scan [] [] ((0 : Int), (0 : Int), (0 : Int)) 2
      ((1 : Int), (1 : Int), (1 : Int)) (by decide)).2.1⟩

/-- Embeds the filter of `systems::unload_chunks_out_of_render_distance`:
the registry entries every observer finds strictly beyond `R + M`. -/
def unload_scan (observers : List (VoxelChunkPosition × RenderDistance))
    (m : VoxelChunkMap) : List (VoxelChunkPosition × Entity) :=
  m.filter (fun ce =>
    observers.all (fun obs =>
      decide ((obs.2.val + obs.2.unload_margin) ^ 2 < dist2 ce.1 obs.1)))

/-- Embeds `systems::unload_chunks_out_of_render_distance`: the qualifying
entries are pushed onto the back of the unload queue in registry order. -/
def unload_chunks_out_of_render_distance
    (observers : List (VoxelChunkPosition × RenderDistance))
    (m : VoxelChunkMap) (queue : List (VoxelChunkPosition × Entity)) :
    List (VoxelChunkPosition × Entity) :=
  queue ++ unload_scan observers m

/-- Claim C3: a registered chunk is enqueued for unload iff every observer's
squared distance to it exceeds `(R+M)^2`; hence a chunk within `R+M` of any
one observer is never enqueued, and with a single observer the chunk is
enqueued exactly when its distance exceeds `R+M`. -/
theorem C3_unload_scan (observers : List (VoxelChunkPosition × RenderDistance))
    (m : VoxelChunkMap) (c : VoxelChunkPosition) (e : Entity)
    (o : VoxelChunkPosition) (rd : RenderDistance) :
    ((c, e) ∈ unload_scan observers m ↔
      ((c, e) ∈ m ∧ ∀ obs ∈ observers,
        (obs.2.val + obs.2.unload_margin) ^ 2 < dist2 c obs.1)) ∧
    (∀ obs ∈ observers, dist2 c obs.1 ≤ (obs.2.val + obs.2.unload_margin) ^ 2 →
      (c, e) ∉ unload_scan observers m) ∧
    ((c, e) ∈ m →
      (dist2 c o ≤ (rd.val + rd.unload_margin) ^ 2 →
        (c, e) ∉ unload_scan [(o, rd)] m) ∧
      ((rd.val + rd.unload_margin) ^ 2 < dist2 c o →
        (c, e) ∈ unload_scan [(o, rd)] m)) := by
  have hiff : ∀ (obs' : List (VoxelChunkPosition × RenderDistance)),
      ((c, e) ∈ unload_scan obs' m ↔
        ((c, e) ∈ m ∧ ∀ obs ∈ obs',
          (obs.2.val + obs.2.unload_margin) ^ 2 < dist2 c obs.1)) := by
    intro obs'
    unfold unload_scan
    rw [List.mem_filter]
    simp only [List.all_eq_true, decide_eq_true_eq]
  refine ⟨hiff observers, ?_, ?_⟩
  · intro obs hobs hle habs
    have h := ((hiff observers).mp habs).2 obs hobs
    exact absurd h (not_lt_of_le hle)
  · intro hm
    constructor
    · intro hle habs
      have h := ((hiff [(o, rd)]).mp habs).2 (o, rd) (List.mem_singleton_self _)
      exact absurd h (not_lt_of_le hle)
    · intro hlt
      exact (hiff [(o, rd)]).mpr ⟨hm, by
        intro obs hobs
        rcases List.mem_singleton.mp hobs with rfl
        exact hlt⟩

/-- Claim C3 witness: with one observer at the origin (`R = 1`, `M = 1`), the
registered chunk at `(3,0,0)` (distance 3 > 2) is enqueued for unload, while
the one at `(2,0,0)` (distance 2 ≤ 2) is not. -/
theorem C3_unload_scan_witness :
    (((3 : Int), (0 : Int), (0 : Int)), 1) ∈
      unload_scan [(((0 : Int), (0 : Int), (0 : Int)), ⟨1, 1⟩)]
        [((((3 : Int), (0 : Int), (0 : Int)), 1)), ((((2 : Int), (0 : Int), (0 : Int)), 2))] ∧
    (((2 : Int), (0 : Int), (0 : Int)), 2) ∉
      unload_scan [(((0 : Int), (0 : Int), (0 : Int)), ⟨1, 1⟩)]
        [((((3 : Int), (0 : Int), (0 : Int)), 1)), ((((2 : Int), (0 : Int), (0 : Int)), 2))] :=
  ⟨((C3_unload_scan [(((0 : Int), (0 : Int), (0 : Int)), ⟨1, 1⟩)]
      [((((3 : Int), (0 : Int), (0 : Int)), 1)), ((((2 : Int), (0 : Int), (0 : Int)), 2))]
      ((3 : Int), (0 : Int), (0 : Int)) 1 ((0 : Int), (0 : Int), (0 : Int)) ⟨1, 1⟩).2.2
      (by decide)).2 (by decide),
   ((C3_unload_scan [(((0 : Int), (0 : Int), (0 : Int)), ⟨1, 1⟩)]
      [((((3 : Int), (0 : Int), (0 : Int)), 1)), ((((2 : Int), (0 : Int), (0 : Int)), 2))]
      ((2 : Int), (0 : Int), (0 : Int)) 2 ((0 : Int), (0 : Int), (0 : Int)) ⟨1, 1⟩).2.2
      (by decide)).1 (by decide)⟩

/-! ### Chunk generation from noise (`VoxelChunk::from_noise`) -/

/-- Models the external `Fbm<Simplex>` noise field of `src/voxel/noise.rs`:
the `f64` value the sampler returns at an integer world coordinate (the
`* 0.01` scaling happens inside the sampler and is absorbed here), as an
abstract function into `ℚ`. -/
def TerrainNoise : Type := Int → Int → Int → Rat

/-- Embeds `TerrainNoise::get_voxel`: `STONE` exactly when the noise value is
negative, `AIR` otherwise. -/
def TerrainNoise.get_voxel (tn : TerrainNoise) (x y z : Int) : Voxel :=
  if tn x y z < 0 then Voxel.STONE else Voxel.AIR

/-- The per-index sample of `VoxelChunk::from_noise`'s parallel loop body:
classify the world coordinate `chunk_pos * chunk_width + local_pos`. -/
def from_noise_sample (chunk_pos : VoxelChunkPosition) (cw : Nat)
    (tn : TerrainNoise) (i : Nat) : Voxel :=
  let position := LocalVoxelPosition.from_index i cw
  tn.get_voxel (chunk_pos.1 * cw + position.x) (chunk_pos.2.1 * cw + position.y)
    (chunk_pos.2.2 * cw + position.z)

/-- Embeds `VoxelChunk::from_noise` under an explicit write schedule: the
buffer starts as `AIR`-filled (`vec![Voxel::AIR; range_size]`), and the
rayon workers write their disjoint indices in some arbitrary order `sched`;
each write stores `from_noise_sample` at its own index. -/
def from_noise_sched (chunk_pos : VoxelChunkPosition) (cw : Nat)
    (tn : TerrainNoise) (sched : List Nat) : VoxelChunk :=
  ⟨sched.foldl (fun voxels i => voxels.set i (from_noise_sample chunk_pos cw tn i))
    (List.replicate (cw * cw * cw) Voxel.AIR)⟩

/-- `VoxelChunk::from_noise` itself: every index of `0..range_size` is
written exactly once (here in ascending order; claim C8 shows the result is
the same for any schedule covering all indices). -/
def VoxelChunk.from_noise (chunk_pos : VoxelChunkPosition) (cw : Nat)
    (tn : TerrainNoise) : VoxelChunk :=
  from_noise_sched chunk_pos cw tn (List.range (cw * cw * cw))

theorem foldl_set_length (f : Nat → Voxel) (sched : List Nat) :
    ∀ voxels : List Voxel,
      (sched.foldl (fun vs i => vs.set i (f i)) voxels).length = voxels.length := by
  induction sched with
  | nil => intro voxels; rfl
  | cons a t ih =>
    intro voxels
    rw [List.foldl_cons, ih, List.length_set]

theorem foldl_set_untouched (f : Nat → Voxel) (t : List Nat) :
    ∀ (vs : List Voxel) (j : Nat), j ∉ t →
      (t.foldl (fun vs i => vs.set i (f i)) vs).get? j = vs.get? j := by
  induction t with
  | nil => intro vs j _; rfl
  | cons b u ih =>
    intro vs j hj
    rw [List.foldl_cons, ih _ j (fun h => hj (List.mem_cons_of_mem _ h))]
    exact List.get?_set_ne _ _ (fun h => hj (h ▸ List.mem_cons_self _ _))

theorem foldl_set_get (f : Nat → Voxel) (sched : List Nat) :
    ∀ (voxels : List Voxel) (j : Nat), j < voxels.length → j ∈ sched →
      (sched.foldl (fun vs i => vs.set i (f i)) voxels).get? j = some (f j) := by
  induction sched with
  | nil => intro voxels j _ h; cases h
  | cons a t ih =>
    intro voxels j hj hmem
    rw [List.foldl_cons]
    by_cases hjt : j ∈ t
    · exact ih _ j (by rw [List.length_set]; exact hj) hjt
    · have hja : j = a := by
        rcases List.mem_cons.mp hmem with h | h
        · exact h
        · exact absurd h hjt
      subst hja
      rw [foldl_set_untouched f t _ j hjt]
      exact List.get?_set_eq_of_lt _ hj


/-- Claim C8: for any write schedule covering every index (any parallel
interleaving of the disjoint rayon writes), the generated chunk has exactly
`cw^3` voxels and voxel `i` is the density classification of the world
coordinate `chunk_pos * cw + from_index i` — `STONE` iff the noise value is
negative; `VoxelChunk::from_noise` is the ascending-order instance. -/
theorem C8_from_noise (chunk_pos : VoxelChunkPosition) (cw : Nat)
    (tn : TerrainNoise) (sched : List Nat)
    (hsched : ∀ i ∈ List.range (cw * cw * cw), i ∈ sched) :
    (from_noise_sched chunk_pos cw tn sched).voxels.length = cw * cw * cw ∧
    (∀ i, i < cw * cw * cw →
      (from_noise_sched chunk_pos cw tn sched).voxels.get? i =
        some (tn.get_voxel
          (chunk_pos.1 * cw + (LocalVoxelPosition.from_index i cw).x)
          (chunk_pos.2.1 * cw + (LocalVoxelPosition.from_index i cw).y)
          (chunk_pos.2.2 * cw + (LocalVoxelPosition.from_index i cw).z))) ∧
    VoxelChunk.from_noise chunk_pos cw tn =
      from_noise_sched chunk_pos cw tn (List.range (cw * cw * cw)) := by
  refine ⟨?_, ?_, rfl⟩
  · unfold from_noise_sched
    rw [foldl_set_length, List.length_replicate]
  · intro i hi
    unfold from_noise_sched
    have h := foldl_set_get (from_noise_sample chunk_pos cw tn) sched
      (List.replicate (cw * cw * cw) Voxel.AIR) i
      (by rw [List.length_replicate]; exact hi)
      (hsched i (List.mem_range.mpr hi))
    rw [h]
    rfl

/-- Claim C8 witness: a 1-wide chunk at the origin under the constant
negative noise field, written by the one-element schedule `[0]`, is a single
`STONE` voxel. -/
theorem C8_from_noise_witness :
    (from_noise_sched ((0 : Int), (0 : Int), (0 : Int)) 1 (fun _ _ _ => (-1 : Rat))
        [0]).voxels.length = 1 ∧
    (from_noise_sched ((0 : Int), (0 : Int), (0 : Int)) 1 (fun _ _ _ => (-1 : Rat))
        [0]).voxels.get? 0 =
      some (TerrainNoise.get_voxel (fun _ _ _ => (-1 : Rat)) 0 0 0) := by
  have h := C8_from_noise ((0 : Int), (0 : Int), (0 : Int)) 1
    (fun _ _ _ => (-1 : Rat)) [0] (by decide)
  exact ⟨h.1, by simpa using h.2.1 0 (by decide)⟩

/-! ### Load-queue drain (`systems::handle_chunk_loading`) -/

/-- The observable state of `systems::handle_chunk_loading`: the registry,
the render queue, the remaining load queue, the next entity id the `spawn`
call will allocate, and the list of live (spawned, not despawned) entities. -/
structure LoadDrainState where
  registry : VoxelChunkMap
  render : List Entity
  load : List VoxelChunkPosition
  nextEntity : Entity
  live : List Entity
  deriving DecidableEq, Repr

/-- Embeds the drain loop of `systems::handle_chunk_loading`: pop the front
coordinate, generate and spawn its chunk, try to register it; on success push
it to the render queue and continue, on `insert_chunk` conflict despawn the
fresh entity and `break` — leaving the conflicting coordinate at the queue
front and the rest of the drain unprocessed. -/
def handle_chunk_loading_go : List VoxelChunkPosition → VoxelChunkMap →
    List Entity → Entity → List Entity → LoadDrainState
  | [], reg, ren, ne, live => ⟨reg, ren, [], ne, live⟩
  | c :: rest, reg, ren, ne, live =>
    match insert_chunk reg c ne with
    | (.error _, _) => ⟨reg, ren, c :: rest, ne + 1, live⟩
    | (.ok _, reg') => handle_chunk_loading_go rest reg' (ren ++ [ne]) (ne + 1) (live ++ [ne])

/-- Claim C5: when the dequeued coordinate is already registered, the drain
discards the freshly generated chunk (its entity is despawned, so the set of
live entities is unchanged), leaves the pre-existing registry entry — and the
whole registry — unmodified, pushes nothing onto the render queue, and aborts
the remaining drain for the tick (the conflicting coordinate and the rest of
the queue stay in place). -/
theorem C5_load_conflict_aborts (reg : VoxelChunkMap) (ren : List Entity)
    (ne : Entity) (live : List Entity) (c : VoxelChunkPosition)
    (rest : List VoxelChunkPosition) (e0 : Entity)
    (h : alookup reg c = some e0) :
    handle_chunk_loading_go (c :: rest) reg ren ne live =
      ⟨reg, ren, c :: rest, ne + 1, live⟩ ∧
    (handle_chunk_loading_go (c :: rest) reg ren ne live).registry = reg ∧
    alookup (handle_chunk_loading_go (c :: rest) reg ren ne live).registry c = some e0 ∧
    (handle_chunk_loading_go (c :: rest) reg ren ne live).render = ren ∧
    (handle_chunk_loading_go (c :: rest) reg ren ne live).load = c :: rest ∧
    (handle_chunk_loading_go (c :: rest) reg ren ne live).live = live := by
  have hs : (alookup reg c).isSome := by rw [h]; rfl
  have hgo : handle_chunk_loading_go (c :: rest) reg ren ne live =
      ⟨reg, ren, c :: rest, ne + 1, live⟩ := by
    unfold handle_chunk_loading_go insert_chunk
    rw [if_pos hs]
  exact ⟨hgo, by rw [hgo], by rw [hgo]; exact h, by rw [hgo], by rw [hgo], by rw [hgo]⟩

/-- Claim C5 witness: with `(0,0,0)` already registered to entity 5, draining
the queue `[(0,0,0), (1,0,0)]` changes nothing and leaves both items queued. -/
theorem C5_load_conflict_aborts_witness :
    handle_chunk_loading_go
        [((0 : Int), (0 : Int), (0 : Int)), ((1 : Int), (0 : Int), (0 : Int))]
        [(((0 : Int), (0 : Int), (0 : Int)), 5)] [] 6 [5] =
      ⟨[(((0 : Int), (0 : Int), (0 : Int)), 5)], [],
        [((0 : Int), (0 : Int), (0 : Int)), ((1 : Int), (0 : Int), (0 : Int))], 7, [5]⟩ :=
  (C5_load_conflict_aborts [(((0 : Int), (0 : Int), (0 : Int)), 5)] [] 6 [5]
    ((0 : Int), (0 : Int), (0 : Int)) [((1 : Int), (0 : Int), (0 : Int))] 5 (by decide)).1

/-! ### World/chunk coordinate conversion (`src/voxel/mod.rs`,
`VoxelChunkCoordinate`) and claim C9

The conversion runs through `f32`: `Vec3::from_chunk_pos` computes
`(c as f32) * (width as f32)` and `VoxelChunkPosition::from_world_pos`
computes `(world_pos as i32) / (width as i32)`.  `f32round` below is the
IEEE-754 binary32 round-to-nearest-even of an integer: exact below `2^24`,
and rounding to the 24-bit significand grid above it. -/

/-- Round a natural number to the nearest multiple of the grid step `s`,
ties to the even multiple (the IEEE-754 tie rule). -/
def f32roundTo (s a : Nat) : Nat :=
  let q := a / s
  let r := a % s
  if 2 * r < s then q * s
  else if s < 2 * r then (q + 1) * s
  else if q % 2 = 0 then q * s else (q + 1) * s

/-- Find the binary32 grid step for magnitude `a` (the smallest `s = 2^k`
with `a < 2^24 * s`) and round; the fuel bounds the doubling search and is
ample for every magnitude in this development. -/
def f32mant : Nat → Nat → Nat → Nat
  | 0, _, a => a
  | fuel + 1, s, a => if a < 2 ^ 24 * s then f32roundTo s a else f32mant fuel (2 * s) a

/-- Round-to-nearest-even of an integer to an `f32`-representable integer
(rounding is symmetric in the sign). -/
def f32round (n : Int) : Int :=
  n.sign * (f32mant 128 1 n.natAbs : Int)

/-- The saturating `f32`-to-`i32` cast (`as i32` in Rust saturates at the
`i32` bounds). -/
def i32sat (n : Int) : Int := max (-(2 ^ 31)) (min (2 ^ 31 - 1) n)

/-- Embeds `Vec3::from_chunk_pos` (the `as_world_pos` direction): each
component is `(c as f32) * (width as f32)` — an `i32`-to-`f32` conversion
followed by a correctly rounded `f32` multiplication (the `u8` width is
always exact in `f32`). -/
def chunk_as_world_pos (c : VoxelChunkPosition) (cw : Nat) : Int × Int × Int :=
  (f32round (f32round c.1 * cw), f32round (f32round c.2.1 * cw),
    f32round (f32round c.2.2 * cw))

/-- Embeds `VoxelChunkPosition::from_world_pos`: each component is cast
`as i32` (saturating, truncating — the inputs here are already integral) and
divided by the width with `i32` division (truncation toward zero); a zero
width makes the source panic with a division by zero, modelled as `none`. -/
def VoxelChunkPosition.from_world_pos (p : Int × Int × Int) (cw : Nat) :
    Option VoxelChunkPosition :=
  if cw = 0 then none
  else some (Int.div (i32sat p.1) cw, Int.div (i32sat p.2.1) cw,
    Int.div (i32sat p.2.2) cw)

/-- Claim C9 counterexample: the round trip is not the identity for every
chunk coordinate and width.  At `c = (33554433, 0, 0)` (`= 2^25 + 1`) and
`w = 16`, the `i32`-to-`f32` conversion already loses the coordinate
(`2^25 + 1` rounds to `2^25`), and the round trip returns `(33554432, 0, 0)`. -/
theorem C9_round_trip_counterexample :
    VoxelChunkPosition.from_world_pos
        (chunk_as_world_pos ((33554433 : Int), (0 : Int), (0 : Int)) 16) 16 =
      some ((33554432 : Int), (0 : Int), (0 : Int)) ∧
    VoxelChunkPosition.from_world_pos
        (chunk_as_world_pos ((33554433 : Int), (0 : Int), (0 : Int)) 16) 16 ≠
      some ((33554433 : Int), (0 : Int), (0 : Int)) := by
  constructor
  · decide
  · decide

theorem f32round_exact (n : Int) (h : n.natAbs ≤ 2 ^ 24) : f32round n = n := by
  have hm : f32mant 128 1 n.natAbs = n.natAbs := by
    rcases Nat.lt_or_ge n.natAbs (2 ^ 24) with hlt | hge
    · show (if n.natAbs < 2 ^ 24 * 1 then f32roundTo 1 n.natAbs
        else f32mant 127 (2 * 1) n.natAbs) = n.natAbs
      rw [if_pos (by omega)]
      show (if 2 * (n.natAbs % 1) < 1 then n.natAbs / 1 * 1
        else if 1 < 2 * (n.natAbs % 1) then (n.natAbs / 1 + 1) * 1
        else if (n.natAbs / 1) % 2 = 0 then n.natAbs / 1 * 1 else (n.natAbs / 1 + 1) * 1) =
        n.natAbs
      rw [Nat.mod_one, Nat.div_one, Nat.mul_one]
      rw [if_pos (by omega)]
    · have heq : n.natAbs = 2 ^ 24 := le_antisymm h hge
      rw [heq]
      decide
  unfold f32round
  rw [hm]
  exact Int.sign_mul_natAbs n

/-- Claim C9, amended: the round trip `from_world_pos (as_world_pos c w) w = c`
holds for every positive width and every coordinate whose scaled magnitude
stays in the `f32`-exact integer range `|c_i| * w ≤ 2^24`; it fails in
general (see the counterexample) and a zero width panics. -/
theorem C9_round_trip_amended (c : VoxelChunkPosition) (cw : Nat) (hcw : 0 < cw)
    (hx : c.1.natAbs * cw ≤ 2 ^ 24) (hy : c.2.1.natAbs * cw ≤ 2 ^ 24)
    (hz : c.2.2.natAbs * cw ≤ 2 ^ 24) :
    VoxelChunkPosition.from_world_pos (chunk_as_world_pos c cw) cw = some c := by
  have comp : ∀ v : Int, v.natAbs * cw ≤ 2 ^ 24 →
      Int.div (i32sat (f32round (f32round v * cw))) cw = v := by
    intro v hv
    have hv1 : v.natAbs ≤ 2 ^ 24 := by
      calc v.natAbs = v.natAbs * 1 := (Nat.mul_one _).symm
        _ ≤ v.natAbs * cw := Nat.mul_le_mul_left _ hcw
        _ ≤ 2 ^ 24 := hv
    rw [f32round_exact v hv1]
    have hprod : (v * cw).natAbs ≤ 2 ^ 24 := by
      rw [Int.natAbs_mul]
      simpa using hv
    rw [f32round_exact _ hprod]
    have hsat : i32sat (v * cw) = v * cw := by
      unfold i32sat
      have h1 : (v * cw).natAbs ≤ 2 ^ 24 := hprod
      have h2 : (v * cw : Int) ≤ 2 ^ 31 - 1 := by omega
      have h3 : (-(2 ^ 31) : Int) ≤ v * cw := by omega
      rw [min_eq_right h2, max_eq_right h3]
    rw [hsat]
    have hcw' : (cw : Int) ≠ 0 := by exact_mod_cast Nat.pos_iff_ne_zero.mp hcw
    exact Int.mul_div_cancel _ hcw'
  unfold VoxelChunkPosition.from_world_pos chunk_as_world_pos
  rw [if_neg (Nat.pos_iff_ne_zero.mp hcw)]
  obtain ⟨cx, cy, cz⟩ := c
  simp only
  rw [comp cx hx, comp cy hy, comp cz hz]

/-- Claim C9 witness for the amended statement: at width 16 the coordinate
`(3, -4, 5)` round-trips exactly. -/
theorem C9_round_trip_amended_witness :
    VoxelChunkPosition.from_world_pos
        (chunk_as_world_pos ((3 : Int), (-4 : Int), (5 : Int)) 16) 16 =
      some ((3 : Int), (-4 : Int), (5 : Int)) :=
  C9_round_trip_amended ((3 : Int), (-4 : Int), (5 : Int)) 16 (by decide)
    (by decide) (by decide) (by decide)

/-! ### Cube mesh tables (`src/voxel/cube_mesh.rs`) and the mesher
(`VoxelChunk::generate_mesh`)

Vertex and normal components are `f32` in the source but only ever take the
values `n ± 0.5` for small `n`, all exactly representable; they are embedded
as rationals. -/

/-- Exact model of the `Vec3` geometry payload components. -/
abbrev Vec3q := Rat × Rat × Rat

inductive CubeFace where
  | Top
  | Bottom
  | Left
  | Right
  | Front
  | Back
  deriving DecidableEq, Repr

/-- The six axis directions, in the source's iteration order. -/
def DIRECT_CUBE_NEIGHBOURS : List (Int × Int × Int) :=
  [(0, 1, 0), (0, -1, 0), (-1, 0, 0), (1, 0, 0), (0, 0, -1), (0, 0, 1)]

/-- Embeds `CubeFace::from_ivec3`; the source panics on a non-canonical
direction, modelled by `none` (unreachable from the six canonical ones). -/
def CubeFace.from_ivec3 (v : Int × Int × Int) : Option CubeFace :=
  if v = (0, 1, 0) then some .Top
  else if v = (0, -1, 0) then some .Bottom
  else if v = (-1, 0, 0) then some .Left
  else if v = (1, 0, 0) then some .Right
  else if v = (0, 0, -1) then some .Front
  else if v = (0, 0, 1) then some .Back
  else none

/-- The uniform normal of a face (`CubeFace::normals` replicates it 4×). -/
def CubeFace.normal : CubeFace → Vec3q
  | .Top => (0, 1, 0)
  | .Bottom => (0, -1, 0)
  | .Left => (-1, 0, 0)
  | .Right => (1, 0, 0)
  | .Front => (0, 0, 1)
  | .Back => (0, 0, -1)

/-- Embeds `CubeFace::normals`: the face normal, four times. -/
def CubeFace.normals (f : CubeFace) : List Vec3q := List.replicate 4 f.normal

/-- The per-direction winding table of `CubeFace::indices` (before the
`vertices_pushed` offset). -/
def CubeFace.base_indices : CubeFace → List Nat
  | .Top => [2, 0, 1, 1, 3, 2]
  | .Bottom => [3, 1, 0, 0, 2, 3]
  | .Left => [0, 1, 3, 3, 2, 0]
  | .Right => [1, 0, 2, 2, 3, 1]
  | .Front => [1, 0, 2, 2, 3, 1]
  | .Back => [0, 1, 3, 3, 2, 0]

/-- Embeds `CubeFace::indices`: the winding table shifted by the number of
vertices already pushed. -/
def CubeFace.indices (f : CubeFace) (vertices_pushed : Nat) : List Nat :=
  f.base_indices.map (fun index => index + vertices_pushed)

/-- Embeds `CubeCorner::vertex` / `CubeCorner::VERTICES`: the eight unit-cube
corners at `±0.5`. -/
def cubeCornerVertex (corner : Nat) : Vec3q :=
  match corner with
  | 0 => (-(1 / 2 : Rat), -(1 / 2 : Rat), -(1 / 2 : Rat))
  | 1 => (-(1 / 2 : Rat), -(1 / 2 : Rat), (1 / 2 : Rat))
  | 2 => ((1 / 2 : Rat), -(1 / 2 : Rat), -(1 / 2 : Rat))
  | 3 => ((1 / 2 : Rat), -(1 / 2 : Rat), (1 / 2 : Rat))
  | 4 => (-(1 / 2 : Rat), (1 / 2 : Rat), -(1 / 2 : Rat))
  | 5 => (-(1 / 2 : Rat), (1 / 2 : Rat), (1 / 2 : Rat))
  | 6 => ((1 / 2 : Rat), (1 / 2 : Rat), -(1 / 2 : Rat))
  | _ => ((1 / 2 : Rat), (1 / 2 : Rat), (1 / 2 : Rat))

/-- Embeds `CubeFace::vertices`: the four corners of each face, in the
source's order (corner numbering as in `CubeCorner::VERTICES`). -/
def CubeFace.vertices : CubeFace → List Vec3q
  | .Top => [cubeCornerVertex 4, cubeCornerVertex 5, cubeCornerVertex 6, cubeCornerVertex 7]
  | .Bottom => [cubeCornerVertex 0, cubeCornerVertex 1, cubeCornerVertex 2, cubeCornerVertex 3]
  | .Left => [cubeCornerVertex 0, cubeCornerVertex 1, cubeCornerVertex 4, cubeCornerVertex 5]
  | .Right => [cubeCornerVertex 2, cubeCornerVertex 3, cubeCornerVertex 6, cubeCornerVertex 7]
  | .Front => [cubeCornerVertex 0, cubeCornerVertex 2, cubeCornerVertex 4, cubeCornerVertex 6]
  | .Back => [cubeCornerVertex 1, cubeCornerVertex 3, cubeCornerVertex 5, cubeCornerVertex 7]

/-- Embeds `u8::checked_add_signed`: `some` exactly when the sum stays in the
`u8` range. -/
def checked_add_signed (a : Nat) (d : Int) : Option Nat :=
  if 0 ≤ (a : Int) + d ∧ (a : Int) + d ≤ 255 then some ((a : Int) + d).toNat else none

/-- Embeds the inner direction loop of `VoxelChunk::generate_mesh`: for each
of the six directions, skip it entirely when a `u8` component under/overflows
(`checked_add_signed` returns `None` and the source `continue`s), otherwise
consult the registry — with the hardcoded chunk coordinate `(0,0,0)` the
source passes — and emit the face when the lookup misses or finds a
non-solid voxel. -/
def facesForVoxel (voxel_map : VoxelChunkMap) (q : ChunkQuery) (cw : Nat)
    (local_voxel_pos : LocalVoxelPosition) : List CubeFace :=
  DIRECT_CUBE_NEIGHBOURS.foldl (fun faces neighbour =>
    match checked_add_signed local_voxel_pos.x neighbour.1,
        checked_add_signed local_voxel_pos.y neighbour.2.1,
        checked_add_signed local_voxel_pos.z neighbour.2.2 with
    | some x, some y, some z =>
      match CubeFace.from_ivec3 neighbour with
      | none => faces
      | some face =>
        match get_voxel voxel_map ((0 : Int), (0 : Int), (0 : Int)) ⟨x, y, z⟩ cw q with
        | some voxel => if voxel.is_solid then faces else faces ++ [face]
        | none => faces ++ [face]
    | _, _, _ => faces) []

/-- The geometry payload of `generate_mesh` (position, triangle-index and
normal buffers). -/
structure MeshData where
  vertices : List Vec3q
  indices : List Nat
  normals : List Vec3q
  deriving DecidableEq, Repr

/-- Embeds the per-face buffer appends of `generate_mesh`: 6 winding indices
offset by the running `vertices_pushed` counter, then the 4 face corners
offset to the voxel position, then the 4 normals; the counter grows by 4. -/
def pushFace (local_voxel_pos : LocalVoxelPosition) (st : MeshData × Nat)
    (face : CubeFace) : MeshData × Nat :=
  ({ vertices := st.1.vertices ++ face.vertices.map (fun v =>
        ((local_voxel_pos.x : Rat) + v.1, (local_voxel_pos.y : Rat) + v.2.1,
          (local_voxel_pos.z : Rat) + v.2.2)),
     indices := st.1.indices ++ face.indices st.2,
     normals := st.1.normals ++ face.normals }, st.2 + 4)

/-- Embeds `VoxelChunk::generate_mesh`: iterate the voxels in flat-index
order, skip non-solid ones, compute the emitted faces of each solid voxel,
and append each face's geometry to the accumulated buffers. -/
def VoxelChunk.generate_mesh (chunk : VoxelChunk) (cw : Nat)
    (voxel_map : VoxelChunkMap) (q : ChunkQuery) : MeshData :=
  (chunk.voxels.enum.foldl (fun st iv =>
      if iv.2.is_solid then
        (facesForVoxel voxel_map q cw (LocalVoxelPosition.from_index iv.1 cw)).foldl
          (pushFace (LocalVoxelPosition.from_index iv.1 cw)) st
      else st)
    (⟨[], [], []⟩, 0)).1

/-- The flattened list of emitted faces of a chunk, in emission order
(ascending flat index, then direction order). -/
def meshFaces (chunk : VoxelChunk) (cw : Nat) (voxel_map : VoxelChunkMap)
    (q : ChunkQuery) : List (LocalVoxelPosition × CubeFace) :=
  chunk.voxels.enum.flatMap (fun iv =>
    if iv.2.is_solid then
      (facesForVoxel voxel_map q cw (LocalVoxelPosition.from_index iv.1 cw)).map
        (fun f => (LocalVoxelPosition.from_index iv.1 cw, f))
    else [])

/-- Folding the per-face append over a flattened face list. -/
def buildFaces (l : List (LocalVoxelPosition × CubeFace)) (st : MeshData × Nat) :
    MeshData × Nat :=
  l.foldl (fun st pf => pushFace pf.1 st pf.2) st

theorem base_indices_length (f : CubeFace) : f.base_indices.length = 6 := by
  cases f <;> rfl

theorem base_indices_lt (f : CubeFace) : ∀ b ∈ f.base_indices, b < 4 := by
  cases f <;> decide

theorem face_vertices_length (f : CubeFace) : f.vertices.length = 4 := by
  cases f <;> rfl

theorem face_normals_length (f : CubeFace) : f.normals.length = 4 := by
  cases f <;> rfl

theorem generate_mesh_eq_buildFaces (chunk : VoxelChunk) (cw : Nat)
    (voxel_map : VoxelChunkMap) (q : ChunkQuery) :
    chunk.generate_mesh cw voxel_map q =
      (buildFaces (meshFaces chunk cw voxel_map q) (⟨[], [], []⟩, 0)).1 := by
  unfold VoxelChunk.generate_mesh meshFaces
  congr 1
  generalize chunk.voxels.enum = l
  generalize hst : ((⟨[], [], []⟩, 0) : MeshData × Nat) = st
  clear hst
  induction l generalizing st with
  | nil => rfl
  | cons a t ih =>
    rw [List.foldl_cons, List.cons_flatMap]
    unfold buildFaces
    rw [List.foldl_append]
    rw [ih]
    congr 1
    by_cases h : a.2.is_solid
    · rw [if_pos h, if_pos h, List.foldl_map]
    · rw [if_neg h, if_neg h, List.foldl_nil]

theorem pushFace_vertices (lp : LocalVoxelPosition) (st : MeshData × Nat) (f : CubeFace) :
    (pushFace lp st f).1.vertices = st.1.vertices ++ f.vertices.map (fun v =>
      ((lp.x : Rat) + v.1, (lp.y : Rat) + v.2.1, (lp.z : Rat) + v.2.2)) := rfl

theorem pushFace_indices (lp : LocalVoxelPosition) (st : MeshData × Nat) (f : CubeFace) :
    (pushFace lp st f).1.indices = st.1.indices ++ f.indices st.2 := rfl

theorem pushFace_normals (lp : LocalVoxelPosition) (st : MeshData × Nat) (f : CubeFace) :
    (pushFace lp st f).1.normals = st.1.normals ++ f.normals := rfl

theorem pushFace_counter (lp : LocalVoxelPosition) (st : MeshData × Nat) (f : CubeFace) :
    (pushFace lp st f).2 = st.2 + 4 := rfl

theorem buildFaces_spec (l : List (LocalVoxelPosition × CubeFace)) :
    (buildFaces l (⟨[], [], []⟩, 0)).2 = 4 * l.length ∧
    (buildFaces l (⟨[], [], []⟩, 0)).1.vertices.length = 4 * l.length ∧
    (buildFaces l (⟨[], [], []⟩, 0)).1.normals.length = 4 * l.length ∧
    (buildFaces l (⟨[], [], []⟩, 0)).1.indices.length = 6 * l.length ∧
    ∀ j pf, l.get? j = some pf →
      ((buildFaces l (⟨[], [], []⟩, 0)).1.indices.drop (6 * j)).take 6 =
        pf.2.base_indices.map (fun b => b + 4 * j) := by
  induction l using List.reverseRecOn with
  | nil =>
    refine ⟨rfl, rfl, rfl, rfl, ?_⟩
    intro j pf h
    cases h
  | append_singleton t pf ih =>
    obtain ⟨ihc, ihv, ihn, ihi, ihj⟩ := ih
    have hstep : buildFaces (t ++ [pf]) (⟨[], [], []⟩, 0) =
        pushFace pf.1 (buildFaces t (⟨[], [], []⟩, 0)) pf.2 := by
      unfold buildFaces
      rw [List.foldl_append, List.foldl_cons, List.foldl_nil]
    have hlapp : (t ++ [pf]).length = t.length + 1 := by
      rw [List.length_append, List.length_singleton]
    refine ⟨?_, ?_, ?_, ?_, ?_⟩
    · rw [hstep, pushFace_counter, ihc, hlapp]
      ring
    · rw [hstep, pushFace_vertices, List.length_append, List.length_map, ihv,
        face_vertices_length, hlapp]
      ring
    · rw [hstep, pushFace_normals, List.length_append, ihn, face_normals_length, hlapp]
      ring
    · rw [hstep, pushFace_indices, List.length_append, ihi, CubeFace.indices,
        List.length_map, base_indices_length, hlapp]
      ring
    · intro j qf hj
      rw [hstep, pushFace_indices]
      rcases Nat.lt_or_ge j t.length with hlt | hge
      · have hget : t.get? j = some qf := by
          rw [List.get?_append hlt] at hj
          exact hj
        have hslice := ihj j qf hget
        rw [List.drop_append_of_le_length (by rw [ihi]; omega),
          List.take_append_of_le_length (by rw [List.length_drop, ihi]; omega)]
        exact hslice
      · have hj' : j = t.length := by
          have hlt2 : j < (t ++ [pf]).length := by
            rcases List.get?_eq_some.mp hj with ⟨h1, _⟩
            exact h1
          rw [hlapp] at hlt2
          omega
        subst hj'
        have hpf : qf = pf := by
          rw [List.get?_concat_length] at hj
          exact (Option.some_inj.mp hj).symm
        subst hpf
        have hdrop : ((buildFaces t (⟨[], [], []⟩, 0)).1.indices ++
            CubeFace.indices qf.2 (buildFaces t (⟨[], [], []⟩, 0)).2).drop (6 * t.length) =
            CubeFace.indices qf.2 (buildFaces t (⟨[], [], []⟩, 0)).2 := by
          rw [← ihi, List.drop_left]
        rw [hdrop, ihc]
        have hlen : (CubeFace.indices qf.2 (4 * t.length)).length = 6 := by
          unfold CubeFace.indices
          rw [List.length_map, base_indices_length]
        rw [← hlen, List.take_length]
        unfold CubeFace.indices
        rfl

/-- A chunk fixture: width 3, all air except one stone voxel at the centre
`(1,1,1)` (flat index 13). -/
def singleVoxelChunk : VoxelChunk := ⟨(List.replicate 27 Voxel.AIR).set 13 Voxel.STONE⟩

/-- Registry fixture: the single chunk registered at `(0,0,0)` (no neighbour
chunks registered). -/
def singleVoxelMap : VoxelChunkMap := [(((0 : Int), (0 : Int), (0 : Int)), 1)]

/-- Query fixture resolving entity 1 to the single-voxel chunk. -/
def singleVoxelQuery : ChunkQuery := [(1, singleVoxelChunk)]

/-- Claim C6: every emitted face appends exactly 4 vertices, 4 copies of its
normal and 6 indices that reference only its own 4 vertices (the face at
position `j` of the emission order uses exactly the indices
`base_indices + 4*j`, which lie in `[4*j, 4*j+4)`); a width-3 chunk with one
solid voxel surrounded by air emits exactly 6 faces: 24 vertices, 24 normals,
36 indices. -/
theorem C6_mesh_face_structure (chunk : VoxelChunk) (cw : Nat)
    (voxel_map : VoxelChunkMap) (q : ChunkQuery) :
    ((chunk.generate_mesh cw voxel_map q).vertices.length =
        4 * (meshFaces chunk cw voxel_map q).length ∧
      (chunk.generate_mesh cw voxel_map q).normals.length =
        4 * (meshFaces chunk cw voxel_map q).length ∧
      (chunk.generate_mesh cw voxel_map q).indices.length =
        6 * (meshFaces chunk cw voxel_map q).length ∧
      ∀ j pf, (meshFaces chunk cw voxel_map q).get? j = some pf →
        (((chunk.generate_mesh cw voxel_map q).indices.drop (6 * j)).take 6 =
            pf.2.base_indices.map (fun b => b + 4 * j) ∧
          ∀ idx ∈ ((chunk.generate_mesh cw voxel_map q).indices.drop (6 * j)).take 6,
            4 * j ≤ idx ∧ idx < 4 * j + 4)) ∧
    ((meshFaces singleVoxelChunk 3 singleVoxelMap singleVoxelQuery).length = 6 ∧
      (singleVoxelChunk.generate_mesh 3 singleVoxelMap singleVoxelQuery).vertices.length = 24 ∧
      (singleVoxelChunk.generate_mesh 3 singleVoxelMap singleVoxelQuery).normals.length = 24 ∧
      (singleVoxelChunk.generate_mesh 3 singleVoxelMap singleVoxelQuery).indices.length = 36) := by
  have general : ∀ (chunk' : VoxelChunk) (cw' : Nat) (m' : VoxelChunkMap) (q' : ChunkQuery),
      (chunk'.generate_mesh cw' m' q').vertices.length =
        4 * (meshFaces chunk' cw' m' q').length ∧
      (chunk'.generate_mesh cw' m' q').normals.length =
        4 * (meshFaces chunk' cw' m' q').length ∧
      (chunk'.generate_mesh cw' m' q').indices.length =
        6 * (meshFaces chunk' cw' m' q').length ∧
      ∀ j pf, (meshFaces chunk' cw' m' q').get? j = some pf →
        (((chunk'.generate_mesh cw' m' q').indices.drop (6 * j)).take 6 =
            pf.2.base_indices.map (fun b => b + 4 * j) ∧
          ∀ idx ∈ ((chunk'.generate_mesh cw' m' q').indices.drop (6 * j)).take 6,
            4 * j ≤ idx ∧ idx < 4 * j + 4) := by
    intro chunk' cw' m' q'
    have hspec := buildFaces_spec (meshFaces chunk' cw' m' q')
    rw [generate_mesh_eq_buildFaces]
    refine ⟨hspec.2.1, hspec.2.2.1, hspec.2.2.2.1, ?_⟩
    intro j pf hj
    have hslice := hspec.2.2.2.2 j pf hj
    refine ⟨hslice, ?_⟩
    intro idx hidx
    rw [hslice] at hidx
    rcases List.mem_map.mp hidx with ⟨b, hb, rfl⟩
    have hb4 := base_indices_lt pf.2 b hb
    omega
  have hfaces : (meshFaces singleVoxelChunk 3 singleVoxelMap singleVoxelQuery).length = 6 := by
    decide
  obtain ⟨gv, gn, gi, _⟩ := general singleVoxelChunk 3 singleVoxelMap singleVoxelQuery
  exact ⟨general chunk cw voxel_map q,
    hfaces, by rw [gv, hfaces], by rw [gn, hfaces], by rw [gi, hfaces]⟩

/-- Claim C6 witness: the per-face index-slice property discharged at face 0
of the single-voxel chunk's mesh. -/
theorem C6_mesh_face_structure_witness :
    ((singleVoxelChunk.generate_mesh 3 singleVoxelMap singleVoxelQuery).indices.drop 0).take 6 =
      CubeFace.Top.base_indices.map (fun b => b + 0) ∧
    (singleVoxelChunk.generate_mesh 3 singleVoxelMap singleVoxelQuery).vertices.length = 24 := by
  have h := C6_mesh_face_structure singleVoxelChunk 3 singleVoxelMap singleVoxelQuery
  have hj := (h.1.2.2.2 0 (⟨1, 1, 1⟩, CubeFace.Top) (by decide)).1
  exact ⟨by simpa using hj, h.2.2.1⟩

/-- A chunk fixture for claim C1: width 3, all air except one stone voxel at
the local corner `(0,0,0)` (flat index 0). -/
def cornerVoxelChunk : VoxelChunk := ⟨(List.replicate 27 Voxel.AIR).set 0 Voxel.STONE⟩

/-- Registry fixture: the corner chunk registered at `(0,0,0)`. -/
def cornerVoxelMap : VoxelChunkMap := [(((0 : Int), (0 : Int), (0 : Int)), 1)]

/-- Query fixture resolving entity 1 to the corner chunk. -/
def cornerVoxelQuery : ChunkQuery := [(1, cornerVoxelChunk)]

/-- Claim C1 (refuted by evaluation): for the solid voxel at local `(0,0,0)`
of a width-3 chunk, the neighbouring positions in the `-y`, `-x` and `-z`
directions lie outside the chunk's local bounds, so the claim requires the
Bottom, Left and Front boundary faces to be emitted; the code instead skips
a direction entirely when `checked_add_signed` underflows, emitting only
`[Top, Right, Back]` — 3 faces (12 vertices) instead of 6 (24). -/
theorem C1_boundary_faces_skipped :
    facesForVoxel cornerVoxelMap cornerVoxelQuery 3 ⟨0, 0, 0⟩ =
      [CubeFace.Top, CubeFace.Right, CubeFace.Back] ∧
    CubeFace.Bottom ∉ facesForVoxel cornerVoxelMap cornerVoxelQuery 3 ⟨0, 0, 0⟩ ∧
    CubeFace.Left ∉ facesForVoxel cornerVoxelMap cornerVoxelQuery 3 ⟨0, 0, 0⟩ ∧
    CubeFace.Front ∉ facesForVoxel cornerVoxelMap cornerVoxelQuery 3 ⟨0, 0, 0⟩ ∧
    (meshFaces cornerVoxelChunk 3 cornerVoxelMap cornerVoxelQuery).length = 3 := by
  refine ⟨by decide, by decide, by decide, by decide, by decide⟩

end VoxelGame
